import Mathlib

/-!
Verification of the video merge service (src/index.js).

The service stages uploaded files via multer `diskStorage` (timestamp prefix
plus sanitized original name), validates that at least two files arrived,
writes an ffmpeg concat-demuxer manifest (one line per file), runs ffmpeg,
and on success streams the merged output back with `res.download`; a helper
`cleanup` removes uploaded files, the concat list and the merged output.

This file shallowly embeds that pipeline: the pure string computations
(filename sanitization, manifest construction, path generation) are embedded
as Lean functions on `String`/`List Char`, and the request handler's control
flow is embedded as a function from an environment (which outcome each
effectful step had) to the list of observable events the handler performs,
in order.
-/

namespace VideoMerger

/-- The single-quote character used as the delimiter in ffmpeg concat
manifests (code point 39). -/
def squote : Char := Char.ofNat 39

/-- The backslash character. -/
def bslash : Char := Char.ofNat 92

/-- Characters kept unchanged by the multer filename sanitizer: the regex
class in `file.originalname.replace(/[^a-zA-Z0-9.\-]/g, "_")`. -/
def keepChar (c : Char) : Bool :=
  (decide ('a' ≤ c) && decide (c ≤ 'z')) ||
  (decide ('A' ≤ c) && decide (c ≤ 'Z')) ||
  (decide ('0' ≤ c) && decide (c ≤ '9')) ||
  c = '.' || c = '-'

/-- Per-character action of the sanitizing `replace`: characters outside the
kept class become an underscore. -/
def sanitizeChar (c : Char) : Char := if keepChar c then c else '_'

/-- `safeName` from the multer `filename` callback: the original name with
every character outside `[a-zA-Z0-9.\-]` replaced by an underscore. -/
def safeName (s : String) : String := ⟨s.data.map sanitizeChar⟩

/-- The staged filename `${ts}_${safeName}` generated by the multer
`filename` callback, where `ts = Date.now()`. -/
def stagedFilename (ts : Nat) (originalname : String) : String :=
  Nat.repr ts ++ "_" ++ safeName originalname

/-- `path.join` for a directory and a simple file name. -/
def joinPath (dir name : String) : String := dir ++ "/" ++ name

/-- Absolute path of a staged upload inside the upload directory. -/
def stagedPath (dir : String) (ts : Nat) (originalname : String) : String :=
  joinPath dir (stagedFilename ts originalname)

/-- `file.path.replace(/\\/g, "/")`: path separators normalized to forward
slashes. -/
def normalizeSlashes (s : String) : String :=
  ⟨s.data.map (fun c => if c = bslash then '/' else c)⟩

/-- One manifest line, `file '<path>'`, from the `listContent` map. -/
def listLine (p : String) : String :=
  "file " ++ squote.toString ++ normalizeSlashes p ++ squote.toString

/-- `array.join("\n")`: lines joined by newline characters. -/
def joinNl : List String → String
  | [] => ""
  | [l] => l
  | l :: ls => l ++ "\n" ++ joinNl ls

/-- `listContent`: the full manifest text, one `file '<path>'` line per
staged file in submission order, joined by newlines. -/
def listContent (paths : List String) : String := joinNl (paths.map listLine)

/-- The concat list path `concat_${Date.now()}.txt` inside the upload
directory. -/
def concatListPath (dir : String) (ts : Nat) : String :=
  joinPath dir ("concat_" ++ Nat.repr ts ++ ".txt")

/-- The output path `merged_${Date.now()}.mp4` inside the upload
directory. -/
def outputPath (dir : String) (ts : Nat) : String :=
  joinPath dir ("merged_" ++ Nat.repr ts ++ ".mp4")

/-!
Decimal rendering. `Nat.repr` is implemented with the fuel-based
`Nat.toDigitsCore`; `decRepr` is a fuel-free equivalent used to reason
about it.
-/

/-- Fuel-free decimal digit-character list of a natural number, agreeing
with `Nat.repr`. -/
def decRepr (n : Nat) : List Char :=
  if n < 10 then [Nat.digitChar n]
  else decRepr (n / 10) ++ [Nat.digitChar (n % 10)]
decreasing_by exact Nat.div_lt_self (by omega) (by omega)

theorem decRepr_small {n : Nat} (h : n < 10) : decRepr n = [Nat.digitChar n] := by
  rw [decRepr]
  simp [h]

theorem decRepr_large {n : Nat} (h : ¬ n < 10) :
    decRepr n = decRepr (n / 10) ++ [Nat.digitChar (n % 10)] := by
  rw [decRepr]
  simp [h]

theorem toDigitsCore_eq_decRepr :
    ∀ (fuel n : Nat) (acc : List Char), n < fuel →
      Nat.toDigitsCore 10 fuel n acc = decRepr n ++ acc := by
  intro fuel
  induction fuel with
  | zero => intro n acc h; omega
  | succ f ih =>
    intro n acc h
    rw [show Nat.toDigitsCore 10 (f + 1) n acc =
      if n / 10 = 0 then Nat.digitChar (n % 10) :: acc
      else Nat.toDigitsCore 10 f (n / 10) (Nat.digitChar (n % 10) :: acc) from rfl]
    by_cases h10 : n / 10 = 0
    · have hn : n < 10 := by omega
      rw [if_pos h10, decRepr_small hn, Nat.mod_eq_of_lt hn]
      rfl
    · have hlt : n / 10 < f := by omega
      rw [if_neg h10, ih (n / 10) (Nat.digitChar (n % 10) :: acc) hlt]
      have hrw : decRepr n = decRepr (n / 10) ++ [Nat.digitChar (n % 10)] :=
        decRepr_large (by omega)
      rw [hrw]
      simp [List.append_assoc]

theorem repr_data (n : Nat) : (Nat.repr n).data = decRepr n := by
  show (Nat.toDigits 10 n).asString.data = decRepr n
  unfold Nat.toDigits
  rw [toDigitsCore_eq_decRepr (n + 1) n [] (Nat.lt_succ_self n)]
  simp [List.asString]

theorem digitChar_inj :
    ∀ m, m < 10 → ∀ n, n < 10 → Nat.digitChar m = Nat.digitChar n → m = n := by
  decide

theorem digitChar_isDigit : ∀ m, m < 10 → (Nat.digitChar m).isDigit = true := by
  decide

theorem decRepr_isDigit (n : Nat) : ∀ c ∈ decRepr n, c.isDigit = true := by
  induction n using Nat.strong_induction_on with
  | _ n ih =>
    rw [decRepr]
    by_cases h : n < 10
    · simp only [if_pos h, List.mem_singleton]
      intro c hc
      subst hc
      exact digitChar_isDigit n h
    · simp only [if_neg h]
      intro c hc
      rcases List.mem_append.mp hc with hl | hr
      · exact ih (n / 10) (Nat.div_lt_self (by omega) (by omega)) c hl
      · rw [List.mem_singleton] at hr
        subst hr
        exact digitChar_isDigit (n % 10) (Nat.mod_lt n (by omega))

theorem decRepr_ne_nil (n : Nat) : decRepr n ≠ [] := by
  rw [decRepr]
  split <;> simp

theorem singleton_ne_append_singleton {a b : Char} {l : List Char}
    (hl : l ≠ []) : [a] ≠ l ++ [b] := by
  intro h
  cases l with
  | nil => exact hl rfl
  | cons c cs => simp at h

theorem decRepr_inj : ∀ m n : Nat, decRepr m = decRepr n → m = n := by
  intro m
  induction m using Nat.strong_induction_on with
  | _ m ih =>
    intro n h
    by_cases hm : m < 10 <;> by_cases hn : n < 10
    · rw [decRepr_small hm, decRepr_small hn] at h
      have : Nat.digitChar m = Nat.digitChar n := by injection h
      exact digitChar_inj m hm n hn this
    · rw [decRepr_small hm, decRepr_large hn] at h
      exact absurd h (singleton_ne_append_singleton (decRepr_ne_nil (n / 10)))
    · rw [decRepr_large hm, decRepr_small hn] at h
      exact absurd h.symm (singleton_ne_append_singleton (decRepr_ne_nil (m / 10)))
    · rw [decRepr_large hm, decRepr_large hn] at h
      obtain ⟨h1, h2⟩ := List.append_inj' h rfl
      have hdiv : m / 10 = n / 10 :=
        ih (m / 10) (Nat.div_lt_self (by omega) (by omega)) (n / 10) h1
      have hd : Nat.digitChar (m % 10) = Nat.digitChar (n % 10) := by injection h2
      have hmod : m % 10 = n % 10 :=
        digitChar_inj (m % 10) (Nat.mod_lt m (by omega)) (n % 10)
          (Nat.mod_lt n (by omega)) hd
      omega

theorem repr_inj {m n : Nat} (h : Nat.repr m = Nat.repr n) : m = n := by
  apply decRepr_inj
  rw [← repr_data, ← repr_data, h]

theorem decRepr_no_underscore (n : Nat) : '_' ∉ decRepr n := by
  intro hmem
  have := decRepr_isDigit n '_' hmem
  simp [Char.isDigit] at this

/-!
The request handler. The handler's effectful steps are recorded as a list
of events, and the environment records the outcome of each external
interaction (multer, the filesystem writes, ffmpeg, the response stream),
so that each control-flow path of `app.post` corresponds to one event
trace.
-/

/-- One entry of `req.files`: the `path` it was staged at. -/
structure UploadedFile where
  path : String
deriving DecidableEq

/-- The response the handler sends: a JSON error body
`status(s).json(\x7b error, details? \x7d)` or `res.download(path, filename)`. -/
inductive Response where
  | json (status : Nat) (error : String) (details : Option String)
  | download (path filename : String)
deriving DecidableEq

/-- Observable events the handler performs, in order. -/
inductive Event where
  /-- `fs.writeFile(concatListPath, listContent)` succeeded. -/
  | writeManifest (path content : String)
  /-- The ffmpeg process was started on the manifest and output paths. -/
  | runFfmpeg (manifestPath outPath : String)
  /-- The response was sent to the client. -/
  | respond (r : Response)
  /-- The `res.download` transmission finished (`ok = false` means the
  download callback received an error). -/
  | deliveryFinished (ok : Bool)
  /-- The `cleanup` helper was invoked with these arguments. -/
  | callCleanup (inputPaths : List String) (listFile mergedFile : Option String)
  /-- A bare `fs.remove(p)` (the catch branch removes only the concat
  list). -/
  | removeFile (p : String)
deriving DecidableEq

/-- Environment of one request: the outcome of every external interaction
the handler makes, fixing which control-flow path runs. -/
structure MergeEnv where
  /-- Error passed by multer to the upload callback, if any. -/
  uploadErr : Option String
  /-- `req.files` (absent when no file field was sent at all). -/
  files : Option (List UploadedFile)
  /-- `Date.now()` when the concat list path is generated. -/
  tsList : Nat
  /-- `Date.now()` when the output path is generated. -/
  tsOut : Nat
  /-- Whether `fs.writeFile` on the concat list succeeds. -/
  writeListOk : Bool
  /-- `e.message` when the write throws. -/
  writeErrMsg : String
  /-- ffmpeg outcome: `some msg` means the error event fired with message
  `msg`; `none` means the end event fired. -/
  ffmpegErr : Option String
  /-- Error passed to the `res.download` callback, if delivery failed. -/
  sendErr : Option String
deriving DecidableEq

/-- The `app.post` merge handler as a trace of events, following
src/index.js line by line. -/
def mergeHandler (dir : String) (env : MergeEnv) : List Event :=
  match env.uploadErr with
  | some m => [Event.respond (Response.json 500 "Upload failed" (some m))]
  | none =>
    match env.files with
    | none =>
      [Event.respond (Response.json 400 "Please upload at least 2 videos to merge" none)]
    | some files =>
      if files.length < 2 then
        [Event.respond (Response.json 400 "Please upload at least 2 videos to merge" none)]
      else
        let listPath := concatListPath dir env.tsList
        if env.writeListOk then
          let outPath := outputPath dir env.tsOut
          Event.writeManifest listPath (listContent (files.map (·.path))) ::
          Event.runFfmpeg listPath outPath ::
          match env.ffmpegErr with
          | some m =>
            [Event.callCleanup (files.map (·.path)) (some listPath) none,
             Event.respond (Response.json 500 "Video merge failed" (some m))]
          | none =>
            [Event.respond (Response.download outPath "merged.mp4"),
             Event.deliveryFinished env.sendErr.isNone,
             Event.callCleanup (files.map (·.path)) (some listPath) (some outPath)]
        else
          [Event.removeFile listPath,
           Event.respond (Response.json 500 "Server error" (some env.writeErrMsg))]

/-- Number of invocations of the `cleanup` helper in a trace. -/
def cleanupCount (t : List Event) : Nat :=
  (t.filter fun e =>
    match e with
    | Event.callCleanup _ _ _ => true
    | _ => false).length

/-- The paths whose removal a trace requests: targets passed to `cleanup`
(inputs, then list file, then merged file) plus bare `fs.remove` calls. -/
def removalTargets : List Event → List String
  | [] => []
  | Event.callCleanup ps lf mf :: rest =>
    (ps ++ lf.toList ++ mf.toList) ++ removalTargets rest
  | Event.removeFile p :: rest => p :: removalTargets rest
  | _ :: rest => removalTargets rest

/-- Whether the handler reaches the merge stage: no upload error, at least
two files present, and the manifest write succeeded. Every path of
src/index.js that calls the `cleanup` helper is beyond this point. -/
def reachesMerge (env : MergeEnv) : Bool :=
  env.uploadErr.isNone &&
  (match env.files with
   | some files => decide (2 ≤ files.length)
   | none => false) &&
  env.writeListOk

/-!
The `cleanup` helper with filesystem semantics. `fs.remove` (fs-extra)
succeeds silently on a path that does not exist; on an existing path it can
fail, modelled by an oracle `fails`. The helper runs all removals inside a
single try block, so the first failing removal aborts the remaining ones;
the catch swallows the error.
-/

/-- Whether one `fs.remove(p)` call succeeds: removal of a non-existent
path always succeeds (fs-extra semantics); removal of an existing path
succeeds unless the failure oracle hits it. -/
def removeSucceeds (fails disk : String → Bool) (p : String) : Bool :=
  !(disk p && fails p)

/-- Disk state after a successful removal of `p`. -/
def eraseP (disk : String → Bool) (p : String) : String → Bool :=
  fun q => if q = p then false else disk q

/-- Run the removals of the try block in order, stopping at the first
failure. Returns the final disk, the list of paths whose removal was
attempted, and whether an error was thrown (and caught). -/
def runRemovals (fails : String → Bool) :
    (String → Bool) → List String → (String → Bool) × List String × Bool
  | disk, [] => (disk, [], false)
  | disk, p :: ps =>
    if removeSucceeds fails disk p then
      let r := runRemovals fails (eraseP disk p) ps
      (r.1, p :: r.2.1, r.2.2)
    else
      (disk, [p], true)

/-- Result of a `cleanup` call. -/
structure CleanupResult where
  /-- Disk state when `cleanup` returns. -/
  disk : String → Bool
  /-- Paths whose removal was attempted, in order. -/
  attempted : List String
  /-- Whether a removal failure was thrown and caught by the catch block. -/
  caught : Bool

/-- The `cleanup` helper of src/index.js: removes each uploaded file, then
the concat list, then the merged file, all inside one try block whose catch
only logs. It always returns normally. -/
def cleanup (fails disk : String → Bool) (uploadedFiles : List UploadedFile)
    (listFile mergedFile : Option String) : CleanupResult :=
  let targets := uploadedFiles.map (·.path) ++ listFile.toList ++ mergedFile.toList
  let r := runRemovals fails disk targets
  { disk := r.1, attempted := r.2.1, caught := r.2.2 }

/-!
Supporting lemmas about the string computations.
-/

/-- The character class the specification prescribes for sanitized names:
`[A-Za-z0-9._-]`. Stated from the specification text, to be compared with
the class the code keeps. -/
def specSafeChar (c : Char) : Bool :=
  (decide ('A' ≤ c) && decide (c ≤ 'Z')) ||
  (decide ('a' ≤ c) && decide (c ≤ 'z')) ||
  (decide ('0' ≤ c) && decide (c ≤ '9')) ||
  c = '.' || c = '_' || c = '-'

theorem sanitizeChar_mem_spec (c : Char) : specSafeChar (sanitizeChar c) = true := by
  unfold sanitizeChar
  by_cases h : keepChar c
  · rw [if_pos h]
    simp only [keepChar, Bool.or_eq_true, Bool.and_eq_true, decide_eq_true_eq] at h
    simp only [specSafeChar, Bool.or_eq_true, Bool.and_eq_true, decide_eq_true_eq]
    tauto
  · rw [if_neg h]
    decide

theorem specSafeChar_fixed (c : Char) (h : specSafeChar c = true) :
    sanitizeChar c = c := by
  simp only [specSafeChar, Bool.or_eq_true, Bool.and_eq_true, decide_eq_true_eq] at h
  rcases h with ((((h | h) | h) | h) | h) | h
  all_goals first
  | (subst h; decide)
  | · unfold sanitizeChar
      rw [if_pos]
      simp only [keepChar, Bool.or_eq_true, Bool.and_eq_true, decide_eq_true_eq]
      tauto

theorem sanitizeChar_ne_newline (c : Char) : sanitizeChar c ≠ '\n' := by
  intro h
  have := sanitizeChar_mem_spec c
  rw [h] at this
  simp [specSafeChar] at this

theorem safeName_no_newline (s : String) : '\n' ∉ (safeName s).data := by
  intro h
  simp only [safeName] at h
  obtain ⟨c, _, hc⟩ := List.mem_map.mp h
  exact sanitizeChar_ne_newline c hc

theorem decRepr_no_newline (n : Nat) : '\n' ∉ decRepr n := by
  intro h
  have := decRepr_isDigit n '\n' h
  simp [Char.isDigit] at this

theorem normalizeSlashes_no_newline {p : String} (h : '\n' ∉ p.data) :
    '\n' ∉ (normalizeSlashes p).data := by
  intro hmem
  simp only [normalizeSlashes] at hmem
  obtain ⟨c, hc, heq⟩ := List.mem_map.mp hmem
  by_cases hb : c = bslash
  · rw [if_pos hb] at heq
    exact absurd heq (by decide)
  · rw [if_neg hb] at heq
    exact h (heq ▸ hc)

theorem normalizeSlashes_keeps_squote {p : String} (h : squote ∈ p.data) :
    squote ∈ (normalizeSlashes p).data := by
  simp only [normalizeSlashes]
  refine List.mem_map.mpr ⟨squote, h, ?_⟩
  decide

theorem stagedPath_no_newline {dir : String} (hdir : '\n' ∉ dir.data)
    (ts : Nat) (name : String) : '\n' ∉ (stagedPath dir ts name).data := by
  intro h
  simp only [stagedPath, joinPath, stagedFilename, String.data_append, repr_data,
    List.mem_append] at h
  rcases h with (h | h) | (h | h) | h
  · exact hdir h
  · exact absurd h (by decide)
  · exact decRepr_no_newline ts h
  · exact absurd h (by decide)
  · exact safeName_no_newline name h

theorem listLine_no_newline {p : String} (h : '\n' ∉ p.data) :
    '\n' ∉ (listLine p).data := by
  intro hmem
  simp only [listLine, String.data_append, List.mem_append] at hmem
  rcases hmem with (hl | hl) | hl
  · exact absurd hl (by decide)
  · exact normalizeSlashes_no_newline h hl
  · exact absurd hl (by decide)

theorem joinNl_data (ls : List String) :
    (joinNl ls).data = List.intercalate ['\n'] (ls.map String.data) := by
  induction ls with
  | nil => rfl
  | cons a as ih =>
    cases as with
    | nil => simp [joinNl, List.intercalate]
    | cons b bs =>
      show (a ++ "\n" ++ joinNl (b :: bs)).data = _
      rw [String.data_append, String.data_append, ih]
      simp [List.intercalate]

theorem string_append_cancel_left {a b c : String} (h : a ++ b = a ++ c) :
    b = c := by
  have hd := congrArg String.data h
  rw [String.data_append, String.data_append] at hd
  exact String.ext (List.append_cancel_left hd)

theorem string_append_cancel_right {a b c : String} (h : a ++ c = b ++ c) :
    a = b := by
  have hd := congrArg String.data h
  rw [String.data_append, String.data_append] at hd
  exact String.ext (List.append_cancel_right hd)

theorem sep_append_inj {sep : Char} {l₁ l₂ r₁ r₂ : List Char}
    (h₁ : sep ∉ l₁) (h₂ : sep ∉ l₂)
    (h : l₁ ++ sep :: r₁ = l₂ ++ sep :: r₂) : l₁ = l₂ ∧ r₁ = r₂ := by
  induction l₁ generalizing l₂ with
  | nil =>
    cases l₂ with
    | nil => simpa using h
    | cons b bs =>
      simp only [List.nil_append, List.cons_append, List.cons.injEq] at h
      exact absurd (List.mem_cons_self b bs) (h.1 ▸ h₂)
  | cons a as ih =>
    cases l₂ with
    | nil =>
      simp only [List.nil_append, List.cons_append, List.cons.injEq] at h
      exact absurd (List.mem_cons_self a as) (h.1.symm ▸ h₁)
    | cons b bs =>
      simp only [List.cons_append, List.cons.injEq] at h
      have h₁' : sep ∉ as := fun hm => h₁ (List.mem_cons_of_mem a hm)
      have h₂' : sep ∉ bs := fun hm => h₂ (List.mem_cons_of_mem b hm)
      obtain ⟨heq, htl⟩ := ih h₁' h₂' h.2
      exact ⟨by rw [h.1, heq], htl⟩

theorem stagedFilename_data (ts : Nat) (name : String) :
    (stagedFilename ts name).data = decRepr ts ++ '_' :: (safeName name).data := by
  simp [stagedFilename, String.data_append, repr_data]

theorem runRemovals_order (fails : String → Bool) :
    ∀ (ts : List String) (disk : String → Bool),
      ∃ rest, ts = (runRemovals fails disk ts).2.1 ++ rest := by
  intro ts
  induction ts with
  | nil => intro disk; exact ⟨[], rfl⟩
  | cons p ps ih =>
    intro disk
    rw [runRemovals]
    by_cases h : removeSucceeds fails disk p = true
    · obtain ⟨rest, hrest⟩ := ih (eraseP disk p)
      exact ⟨rest, by simp [h, ← hrest]⟩
    · exact ⟨ps, by simp [h]⟩

theorem runRemovals_disk_mono (fails : String → Bool) :
    ∀ (ts : List String) (disk : String → Bool) (q : String), disk q = false →
      (runRemovals fails disk ts).1 q = false := by
  intro ts
  induction ts with
  | nil => intro disk q h; exact h
  | cons p ps ih =>
    intro disk q h
    rw [runRemovals]
    by_cases hs : removeSucceeds fails disk p = true
    · simp only [hs, if_pos]
      apply ih
      simp [eraseP, h]
    · simp only [hs, if_neg, ite_false]
      exact h

theorem runRemovals_no_failure (fails : String → Bool) :
    ∀ (ts : List String) (disk : String → Bool),
      (∀ p ∈ ts, fails p = false) →
      (runRemovals fails disk ts).2.1 = ts ∧
      (runRemovals fails disk ts).2.2 = false ∧
      ∀ p ∈ ts, (runRemovals fails disk ts).1 p = false := by
  intro ts
  induction ts with
  | nil => intro disk _; exact ⟨rfl, rfl, by simp⟩
  | cons p ps ih =>
    intro disk h
    have hp : fails p = false := h p (List.mem_cons_self p ps)
    have hs : removeSucceeds fails disk p = true := by
      simp [removeSucceeds, hp]
    rw [runRemovals]
    simp only [hs, if_pos]
    obtain ⟨h1, h2, h3⟩ := ih (eraseP disk p) (fun q hq => h q (List.mem_cons_of_mem p hq))
    refine ⟨by rw [h1], h2, ?_⟩
    intro q hq
    rcases List.mem_cons.mp hq with hq | hq
    · subst hq
      apply runRemovals_disk_mono
      simp [eraseP]
    · exact h3 q hq

theorem runRemovals_absent (fails : String → Bool) :
    ∀ (ts : List String) (disk : String → Bool),
      (∀ p ∈ ts, disk p = false) →
      (runRemovals fails disk ts).2.1 = ts ∧
      (runRemovals fails disk ts).2.2 = false ∧
      (runRemovals fails disk ts).1 = disk := by
  intro ts
  induction ts with
  | nil => intro disk _; exact ⟨rfl, rfl, rfl⟩
  | cons p ps ih =>
    intro disk h
    have hp : disk p = false := h p (List.mem_cons_self p ps)
    have hs : removeSucceeds fails disk p = true := by
      simp [removeSucceeds, hp]
    have herase : eraseP disk p = disk := by
      funext q
      simp only [eraseP]
      by_cases hq : q = p
      · rw [if_pos hq, hq, hp]
      · rw [if_neg hq]
    rw [runRemovals]
    simp only [hs, if_pos]
    rw [herase]
    obtain ⟨h1, h2, h3⟩ := ih disk (fun q hq => h q (List.mem_cons_of_mem p hq))
    exact ⟨by rw [h1], h2, h3⟩

/-!
The claims.
-/

/-- C1 counterexample. The claim says the cleanup routine runs exactly once
on every exit path; on the validation-failure exit (one staged file) the
handler returns the 400 response without invoking `cleanup` at all. -/
theorem C1_counterexample :
    cleanupCount (mergeHandler "up"
      ⟨none, some [⟨"up/1_a.mp4"⟩], 0, 0, true, "", none, none⟩) = 0 := by
  decide

/-- C1 (amended): the `cleanup` helper is invoked exactly once on the paths
that reach the merge stage (merge failure, and success including delivery
failure), and zero times on the upload-error, validation-failure and
manifest-write-failure exits; in particular it is never invoked twice for
one job. -/
theorem C1_cleanup_once_iff_merge_reached (dir : String) (env : MergeEnv) :
    cleanupCount (mergeHandler dir env) = if reachesMerge env then 1 else 0 := by
  rcases env with ⟨ue, fl, tsl, tso, wok, wmsg, ff, se⟩
  cases ue with
  | some m => simp [mergeHandler, reachesMerge, cleanupCount]
  | none =>
    cases fl with
    | none => simp [mergeHandler, reachesMerge, cleanupCount]
    | some files =>
      by_cases hlen : files.length < 2
      · have h2 : ¬ 2 ≤ files.length := by omega
        simp [mergeHandler, reachesMerge, cleanupCount, hlen, h2]
      · have h2 : 2 ≤ files.length := by omega
        cases wok with
        | false => simp [mergeHandler, reachesMerge, cleanupCount, hlen, h2]
        | true =>
          cases ff with
          | some m =>
            simp [mergeHandler, reachesMerge, cleanupCount, hlen, h2, List.filter]
          | none =>
            simp [mergeHandler, reachesMerge, cleanupCount, hlen, h2, List.filter]

/-- C2 counterexample. The claim says a staged path containing a single
quote is rejected with `InvalidPathError` before the tool runs and that no
manifest with an unescaped quote is written; in the code `listContent`
embeds the quoted path verbatim and the handler still writes the manifest
and starts ffmpeg. -/
theorem C2_counterexample :
    listContent ["up/v" ++ squote.toString ++ ".mp4"] =
      "file " ++ squote.toString ++ "up/v" ++ squote.toString ++ ".mp4" ++
        squote.toString ∧
    Event.runFfmpeg (concatListPath "up" 7) (outputPath "up" 7) ∈
      mergeHandler "up"
        ⟨none, some [⟨"up/v" ++ squote.toString ++ ".mp4"⟩, ⟨"up/w.mp4"⟩],
          7, 7, true, "", none, none⟩ := by
  decide

/-- C2 (amended): the manifest builder performs no single-quote validation:
each path is embedded in its manifest line with only backslash-to-slash
normalization (so a single quote in a staged path survives verbatim into
the written manifest), and on every run where the manifest write succeeds
the external tool is invoked regardless of the paths. -/
theorem C2_no_quote_rejection (dir : String) (env : MergeEnv)
    (fs : List UploadedFile) (h0 : env.uploadErr = none)
    (h1 : env.files = some fs) (h2 : ¬ fs.length < 2)
    (h3 : env.writeListOk = true) :
    Event.writeManifest (concatListPath dir env.tsList)
        (listContent (fs.map (·.path))) ∈ mergeHandler dir env ∧
    Event.runFfmpeg (concatListPath dir env.tsList) (outputPath dir env.tsOut) ∈
      mergeHandler dir env ∧
    ∀ p, squote ∈ p.data → squote ∈ (normalizeSlashes p).data := by
  refine ⟨?_, ?_, fun p hp => normalizeSlashes_keeps_squote hp⟩ <;>
    cases hff : env.ffmpegErr <;> simp [mergeHandler, h0, h1, h2, h3, hff]

/-- C2 witness for the amended theorem. -/
theorem C2_no_quote_rejection_witness :
    Event.runFfmpeg (concatListPath "up" 1) (outputPath "up" 2) ∈
      mergeHandler "up"
        ⟨none, some [⟨"up/a.mp4"⟩, ⟨"up/b.mp4"⟩], 1, 2, true, "", none, none⟩ :=
  (C2_no_quote_rejection "up"
    ⟨none, some [⟨"up/a.mp4"⟩, ⟨"up/b.mp4"⟩], 1, 2, true, "", none, none⟩
    [⟨"up/a.mp4"⟩, ⟨"up/b.mp4"⟩] rfl rfl (by decide) rfl).2.1

/-- C3 counterexample. The claim says the 400 body carries a human-readable
`details` string and that the staged files are removed before returning; in
the code the 400 body has no `details` field and the single staged file is
never removed (no cleanup and no remove happens on that path). -/
theorem C3_counterexample :
    mergeHandler "up" ⟨none, some [⟨"up/1_a.mp4"⟩], 0, 0, true, "", none, none⟩ =
      [Event.respond
        (Response.json 400 "Please upload at least 2 videos to merge" none)] ∧
    "up/1_a.mp4" ∉ removalTargets
      (mergeHandler "up"
        ⟨none, some [⟨"up/1_a.mp4"⟩], 0, 0, true, "", none, none⟩) := by
  decide

/-- C3 (amended): a request with fewer than two files gets the 400 response
whose JSON body is `\x7b error: "Please upload at least 2 videos to merge" \x7d`
with no `details` field, and no staged file is removed on this path. -/
theorem C3_validation_response (dir : String) (env : MergeEnv)
    (fs : List UploadedFile) (h0 : env.uploadErr = none)
    (h1 : env.files = some fs) (h2 : fs.length < 2) :
    mergeHandler dir env =
      [Event.respond
        (Response.json 400 "Please upload at least 2 videos to merge" none)] ∧
    removalTargets (mergeHandler dir env) = [] := by
  simp [mergeHandler, h0, h1, h2, removalTargets]

/-- C3 witness for the amended theorem. -/
theorem C3_validation_response_witness :
    mergeHandler "up" ⟨none, some [⟨"up/1_b.mp4"⟩], 3, 3, true, "", none, none⟩ =
      [Event.respond
        (Response.json 400 "Please upload at least 2 videos to merge" none)] :=
  (C3_validation_response "up"
    ⟨none, some [⟨"up/1_b.mp4"⟩], 3, 3, true, "", none, none⟩
    [⟨"up/1_b.mp4"⟩] rfl rfl (by decide)).1

/-- C4 counterexample. The claim says the possibly partial output file is
removed during cleanup on a merge failure; in the code the error handler
calls `cleanup(files, concatListPath, null)`, so the output path is not
among the removal targets. -/
theorem C4_counterexample :
    Event.respond (Response.json 500 "Video merge failed" (some "boom")) ∈
      mergeHandler "up"
        ⟨none, some [⟨"up/1_a.mp4"⟩, ⟨"up/2_b.mp4"⟩], 3, 4, true, "",
          some "boom", none⟩ ∧
    outputPath "up" 4 ∉ removalTargets
      (mergeHandler "up"
        ⟨none, some [⟨"up/1_a.mp4"⟩, ⟨"up/2_b.mp4"⟩], 3, 4, true, "",
          some "boom", none⟩) := by
  decide

/-- C4 (amended): on a merge failure the response is a 500 whose `details`
field carries the tool diagnostic, and cleanup is invoked with the staged
inputs and the concat list but with no merged file, so the removal targets
are exactly the inputs and the manifest — the output path is not among
them. -/
theorem C4_merge_error_response (dir : String) (env : MergeEnv)
    (fs : List UploadedFile) (m : String) (h0 : env.uploadErr = none)
    (h1 : env.files = some fs) (h2 : ¬ fs.length < 2)
    (h3 : env.writeListOk = true) (h4 : env.ffmpegErr = some m) :
    mergeHandler dir env =
      [Event.writeManifest (concatListPath dir env.tsList)
        (listContent (fs.map (·.path))),
       Event.runFfmpeg (concatListPath dir env.tsList) (outputPath dir env.tsOut),
       Event.callCleanup (fs.map (·.path)) (some (concatListPath dir env.tsList))
         none,
       Event.respond (Response.json 500 "Video merge failed" (some m))] ∧
    removalTargets (mergeHandler dir env) =
      fs.map (·.path) ++ [concatListPath dir env.tsList] := by
  constructor
  · simp [mergeHandler, h0, h1, h2, h3, h4]
  · simp [mergeHandler, h0, h1, h2, h3, h4, removalTargets]

/-- C4 witness for the amended theorem. -/
theorem C4_merge_error_response_witness :
    removalTargets
      (mergeHandler "up"
        ⟨none, some [⟨"up/1_a.mp4"⟩, ⟨"up/2_b.mp4"⟩], 3, 4, true, "",
          some "boom", none⟩) =
      ["up/1_a.mp4", "up/2_b.mp4", concatListPath "up" 3] :=
  (C4_merge_error_response "up"
    ⟨none, some [⟨"up/1_a.mp4"⟩, ⟨"up/2_b.mp4"⟩], 3, 4, true, "",
      some "boom", none⟩
    [⟨"up/1_a.mp4"⟩, ⟨"up/2_b.mp4"⟩] "boom" rfl rfl (by decide) rfl rfl).2

/-- C5: for a request with N staged files (2 ≤ N ≤ 5) in a newline-free
upload directory, splitting the written manifest on newlines yields exactly
N lines, the i-th being `listLine` of the i-th staged path in submission
order (the `file '<path>'` form with separators normalized to forward
slashes). -/
theorem C5_manifest_lines (dir : String) (reqs : List (Nat × String))
    (hdir : '\n' ∉ dir.data) (h2 : 2 ≤ reqs.length) (h5 : reqs.length ≤ 5) :
    (listContent (reqs.map fun r => stagedPath dir r.1 r.2)).data.splitOn '\n' =
      reqs.map (fun r => (listLine (stagedPath dir r.1 r.2)).data) ∧
    ((listContent (reqs.map fun r => stagedPath dir r.1 r.2)).data.splitOn
      '\n').length = reqs.length := by
  have hdata : (listContent (reqs.map fun r => stagedPath dir r.1 r.2)).data =
      List.intercalate ['\n']
        (((reqs.map fun r => stagedPath dir r.1 r.2).map listLine).map
          String.data) :=
    joinNl_data _
  have hx : ∀ l ∈ ((reqs.map fun r => stagedPath dir r.1 r.2).map listLine).map
      String.data, '\n' ∉ l := by
    intro l hl
    obtain ⟨line, hline, hl⟩ := List.mem_map.mp hl
    obtain ⟨p, hp, hline⟩ := List.mem_map.mp hline
    obtain ⟨r, _, hp⟩ := List.mem_map.mp hp
    subst hl
    subst hline
    subst hp
    exact listLine_no_newline (stagedPath_no_newline hdir r.1 r.2)
  have hne : ((reqs.map fun r => stagedPath dir r.1 r.2).map listLine).map
      String.data ≠ [] := by
    have hlen : (((reqs.map fun r => stagedPath dir r.1 r.2).map listLine).map
        String.data).length = reqs.length := by
      simp
    intro hnil
    rw [hnil] at hlen
    simp at hlen
    omega
  have hmain : (listContent (reqs.map fun r => stagedPath dir r.1 r.2)).data.splitOn
      '\n' = reqs.map (fun r => (listLine (stagedPath dir r.1 r.2)).data) := by
    rw [hdata, List.splitOn_intercalate _ '\n' hx hne]
    simp [List.map_map]
  refine ⟨hmain, ?_⟩
  rw [hmain]
  simp

/-- C5 witness. -/
theorem C5_manifest_lines_witness :
    ((listContent ([(1, "a.mp4"), (2, "b c.mp4")].map fun r =>
      stagedPath "up" r.1 r.2)).data.splitOn '\n').length = 2 :=
  (C5_manifest_lines "up" [(1, "a.mp4"), (2, "b c.mp4")]
    (by decide) (by decide) (by decide)).2

/-- C6 counterexample. The claim says each artifact removal is attempted
independently; in the code all removals share one try block, so when
removing the first uploaded file fails, removal of the second is never
attempted. -/
theorem C6_counterexample :
    (cleanup (fun p => p == "up/a") (fun _ => true) [⟨"up/a"⟩, ⟨"up/b"⟩]
      none none).attempted = ["up/a"] ∧
    "up/b" ∉ (cleanup (fun p => p == "up/a") (fun _ => true)
      [⟨"up/a"⟩, ⟨"up/b"⟩] none none).attempted := by
  decide

/-- C6 (amended): cleanup attempts the removals in order (inputs, then the
concat list, then the merged file) and the first failing removal aborts the
remaining attempts; the failure is caught inside cleanup, which always
returns normally. When no removal fails, every artifact is attempted and
removed; and the call is idempotent: on paths that no longer exist every
removal succeeds, all targets are attempted, nothing is thrown and the disk
is unchanged. -/
theorem C6_cleanup_behavior (fails disk : String → Bool)
    (ufs : List UploadedFile) (lf mf : Option String) :
    (∃ rest, ufs.map (·.path) ++ lf.toList ++ mf.toList =
      (cleanup fails disk ufs lf mf).attempted ++ rest) ∧
    ((∀ p ∈ ufs.map (·.path) ++ lf.toList ++ mf.toList, fails p = false) →
      (cleanup fails disk ufs lf mf).attempted =
        ufs.map (·.path) ++ lf.toList ++ mf.toList ∧
      (cleanup fails disk ufs lf mf).caught = false ∧
      ∀ p ∈ ufs.map (·.path) ++ lf.toList ++ mf.toList,
        (cleanup fails disk ufs lf mf).disk p = false) ∧
    ((∀ p ∈ ufs.map (·.path) ++ lf.toList ++ mf.toList, disk p = false) →
      (cleanup fails disk ufs lf mf).attempted =
        ufs.map (·.path) ++ lf.toList ++ mf.toList ∧
      (cleanup fails disk ufs lf mf).caught = false ∧
      (cleanup fails disk ufs lf mf).disk = disk) := by
  refine ⟨?_, ?_, ?_⟩
  · exact runRemovals_order fails _ disk
  · intro h
    obtain ⟨h1, h2, h3⟩ := runRemovals_no_failure fails
      (ufs.map (·.path) ++ lf.toList ++ mf.toList) disk h
    exact ⟨h1, h2, h3⟩
  · intro h
    obtain ⟨h1, h2, h3⟩ := runRemovals_absent fails
      (ufs.map (·.path) ++ lf.toList ++ mf.toList) disk h
    exact ⟨h1, h2, h3⟩

/-- C6 witness for the amended theorem: with no removal failures, both
paths are attempted. -/
theorem C6_cleanup_behavior_witness :
    (cleanup (fun _ => false) (fun _ => true) [⟨"up/a"⟩] (some "up/c.txt")
      none).attempted = ["up/a", "up/c.txt"] :=
  ((C6_cleanup_behavior (fun _ => false) (fun _ => true) [⟨"up/a"⟩]
    (some "up/c.txt") none).2.1 (fun _ _ => rfl)).1

/-- C7: on a successful merge the handler responds with
`res.download(outputPath, "merged.mp4")`, and the `cleanup` call — which
includes the output file — is the last event, strictly after the delivery
of the response finished (successfully or not): the output file outlives
the response transmission. -/
theorem C7_cleanup_after_delivery (dir : String) (env : MergeEnv)
    (fs : List UploadedFile) (h0 : env.uploadErr = none)
    (h1 : env.files = some fs) (h2 : ¬ fs.length < 2)
    (h3 : env.writeListOk = true) (h4 : env.ffmpegErr = none) :
    mergeHandler dir env =
      [Event.writeManifest (concatListPath dir env.tsList)
         (listContent (fs.map (·.path))),
       Event.runFfmpeg (concatListPath dir env.tsList) (outputPath dir env.tsOut),
       Event.respond (Response.download (outputPath dir env.tsOut) "merged.mp4"),
       Event.deliveryFinished env.sendErr.isNone,
       Event.callCleanup (fs.map (·.path)) (some (concatListPath dir env.tsList))
         (some (outputPath dir env.tsOut))] := by
  simp [mergeHandler, h0, h1, h2, h3, h4]

/-- C7 witness. -/
theorem C7_cleanup_after_delivery_witness :
    mergeHandler "up"
      ⟨none, some [⟨"up/1_a.mp4"⟩, ⟨"up/2_b.mp4"⟩], 3, 4, true, "", none,
        none⟩ =
      [Event.writeManifest (concatListPath "up" 3)
         (listContent ["up/1_a.mp4", "up/2_b.mp4"]),
       Event.runFfmpeg (concatListPath "up" 3) (outputPath "up" 4),
       Event.respond (Response.download (outputPath "up" 4) "merged.mp4"),
       Event.deliveryFinished true,
       Event.callCleanup ["up/1_a.mp4", "up/2_b.mp4"] (some (concatListPath "up" 3))
         (some (outputPath "up" 4))] :=
  C7_cleanup_after_delivery "up"
    ⟨none, some [⟨"up/1_a.mp4"⟩, ⟨"up/2_b.mp4"⟩], 3, 4, true, "", none, none⟩
    [⟨"up/1_a.mp4"⟩, ⟨"up/2_b.mp4"⟩] rfl rfl (by decide) rfl rfl

/-- C8: under the precondition that the timestamp source has sufficient
resolution (the two calls observe different `Date.now()` values), two
staged filenames never collide — whatever the original names — and two
output paths of concurrent submissions never collide. -/
theorem C8_no_collision (dir : String) (ts₁ ts₂ : Nat) (n₁ n₂ : String)
    (h : ts₁ ≠ ts₂) :
    stagedFilename ts₁ n₁ ≠ stagedFilename ts₂ n₂ ∧
    outputPath dir ts₁ ≠ outputPath dir ts₂ := by
  constructor
  · intro he
    have hd := congrArg String.data he
    rw [stagedFilename_data, stagedFilename_data] at hd
    exact h (decRepr_inj ts₁ ts₂
      (sep_append_inj (decRepr_no_underscore ts₁) (decRepr_no_underscore ts₂)
        hd).1)
  · intro he
    simp only [outputPath, joinPath] at he
    have h1 := string_append_cancel_left he
    have h2 := string_append_cancel_right h1
    have h3 := string_append_cancel_left h2
    exact h (repr_inj h3)

/-- C8 witness. -/
theorem C8_no_collision_witness :
    stagedFilename 1 "a.mp4" ≠ stagedFilename 2 "a.mp4" :=
  (C8_no_collision "up" 1 2 "a.mp4" "a.mp4" (by decide)).1

/-- C9: the staged name is the timestamp prefix concatenated with the
sanitized original name; every character of the sanitized name lies in the
class `[A-Za-z0-9._-]`, and any original character already in that class is
preserved at its position. -/
theorem C9_sanitization (ts : Nat) (name : String) :
    stagedFilename ts name = Nat.repr ts ++ "_" ++ safeName name ∧
    (∀ c ∈ (safeName name).data, specSafeChar c = true) ∧
    (∀ i : Nat, ∀ x : Char, name.data[i]? = some x → specSafeChar x = true →
      (safeName name).data[i]? = some x) := by
  refine ⟨rfl, ?_, ?_⟩
  · intro c hc
    simp only [safeName] at hc
    obtain ⟨d, _, hd⟩ := List.mem_map.mp hc
    rw [← hd]
    exact sanitizeChar_mem_spec d
  · intro i x hx hsafe
    show (name.data.map sanitizeChar)[i]? = some x
    rw [List.getElem?_map, hx]
    simp [specSafeChar_fixed x hsafe]

/-- C9 witness. -/
theorem C9_sanitization_witness : (safeName "a b.mp4").data[0]? = some 'a' :=
  (C9_sanitization 0 "a b.mp4").2.2 0 'a' (by decide) (by decide)

/-- C10: a request with no file field at all (`req.files` absent) gets the
same 400 validation response as a request with a single file; the handler
checks for the absent collection before reading its length, so it does not
fault. -/
theorem C10_missing_files_field (dir : String) (env envOne : MergeEnv)
    (f : UploadedFile) (h0 : env.uploadErr = none) (h1 : env.files = none)
    (g0 : envOne.uploadErr = none) (g1 : envOne.files = some [f]) :
    mergeHandler dir env =
      [Event.respond
        (Response.json 400 "Please upload at least 2 videos to merge" none)] ∧
    mergeHandler dir env = mergeHandler dir envOne := by
  have hnone : mergeHandler dir env =
      [Event.respond
        (Response.json 400 "Please upload at least 2 videos to merge" none)] := by
    simp [mergeHandler, h0, h1]
  have hone : mergeHandler dir envOne =
      [Event.respond
        (Response.json 400 "Please upload at least 2 videos to merge" none)] := by
    simp [mergeHandler, g0, g1]
  exact ⟨hnone, by rw [hnone, hone]⟩

/-- C10 witness. -/
theorem C10_missing_files_field_witness :
    mergeHandler "up" ⟨none, none, 0, 0, true, "", none, none⟩ =
      mergeHandler "up" ⟨none, some [⟨"up/1_a.mp4"⟩], 0, 0, true, "", none,
        none⟩ :=
  (C10_missing_files_field "up" ⟨none, none, 0, 0, true, "", none, none⟩
    ⟨none, some [⟨"up/1_a.mp4"⟩], 0, 0, true, "", none, none⟩
    ⟨"up/1_a.mp4"⟩ rfl rfl rfl rfl).2

end VideoMerger
